import Mathlib

/-!
Shallow embedding of the amqp2http bridge.

The embedding follows the Python sources:
* `src/amqp2http/config.py`  — the validated mapping model,
* `src/amqp2http/dispatch.py` — `dispatch_amqp_message`,
* `src/amqp2http/main.py`    — `create_amqpsystem` and `create_listeners`.

Python dicts are modelled as association lists in insertion order, with
assignment replacing an existing key in place (as CPython dicts do).
HTTP side effects are made explicit: the dispatch function records the
requests it sends and the sleeps it performs, and takes the HTTP transport
as a function from the request to the response it produces.
-/

namespace Amqp2Http

/-- Python values that can appear in an AMQP header table. Only the `str`
conversion applied to them by `dispatch.py` matters for the embedding. -/
inductive PyVal where
  | pyNone
  | pyStr (s : String)
  | pyInt (n : Int)
  | pyBool (b : Bool)
deriving DecidableEq

/-- Python `str()` on the values above; in particular `str(None) = "None"`. -/
def PyVal.str : PyVal → String
  | .pyNone => "None"
  | .pyStr s => s
  | .pyInt n => toString n
  | .pyBool b => if b then "True" else "False"

/-- Python dict lookup `d.get(k)` on the association-list model. -/
def dictGet (k : String) : List (String × α) → Option α
  | [] => none
  | kv :: rest => if kv.1 = k then some kv.2 else dictGet k rest

/-- Python dict assignment `d[k] = v`: replace the value in place if the key
exists, otherwise append the new entry at the end. -/
def dictInsert (k : String) (v : α) : List (String × α) → List (String × α)
  | [] => [(k, v)]
  | kv :: rest => if kv.1 = k then (k, v) :: rest else kv :: dictInsert k v rest

/-- `config.py` `EventEndpoint`: one HTTP destination. `routing_key` is a
pydantic `NonEmptyString` and `url` a validated `AnyHttpUrl`; both are plain
strings once validated. -/
structure EventEndpoint where
  routing_key : String
  url : String
deriving DecidableEq

/-- The pydantic validation constraint on `EventEndpoint.routing_key`
(`NonEmptyString` has `min_length=1`). -/
def EventEndpoint.valid (e : EventEndpoint) : Prop := e.routing_key ≠ ""

/-- The fields of an incoming AMQP message read by `dispatch_amqp_message`.
The optional AMQP properties are `Option`s; `headers` is the message's own
header table (a Python dict, hence unique keys in the real system); `body`
is the raw payload bytes. -/
structure Message where
  content_type : Option String
  content_encoding : Option String
  correlation_id : Option String
  message_id : Option String
  headers : List (String × PyVal)
  body : List Nat
deriving DecidableEq

/-- The part of an `httpx` response read by `dispatch_amqp_message`. -/
structure Response where
  status_code : Nat
  content : List Nat
deriving DecidableEq

/-- An outgoing HTTP request as issued by `client.post` in `dispatch.py`. -/
structure HttpRequest where
  method : String
  url : String
  content : List Nat
  headers : List (String × String)
deriving DecidableEq

/-- The delivery outcome of one dispatch: normal return (`ack`), raising
`RequeueMessage reason`, or raising `RejectMessage reason`. -/
inductive Outcome where
  | ack
  | requeue (reason : String)
  | reject (reason : String)
deriving DecidableEq

/-- The observable effects of one call of `dispatch_amqp_message`: the HTTP
requests sent, the `asyncio.sleep` durations performed, and the outcome. -/
structure DispatchResult where
  requests : List HttpRequest
  sleeps : List Nat
  outcome : Outcome
deriving DecidableEq

/-- The `potential_headers` dict of `dispatch.py`: the five fixed candidate
headers, then one `X-AMQP-HEADER-{key}` entry assigned per message header
entry, in iteration order. -/
def potential_headers (endpoint : EventEndpoint) (message : Message) :
    List (String × Option String) :=
  message.headers.foldl
    (fun acc kv => dictInsert ("X-AMQP-HEADER-" ++ kv.1) (some kv.2.str) acc)
    [("Content-Type", message.content_type),
     ("Content-Encoding", message.content_encoding),
     ("X-Correlation-ID", message.correlation_id),
     ("X-Message-ID", message.message_id),
     ("X-Routing-Key", some endpoint.routing_key)]

/-- The `headers` dict comprehension of `dispatch.py`: keep exactly the
entries whose value is not `None`. -/
def request_headers (endpoint : EventEndpoint) (message : Message) :
    List (String × String) :=
  (potential_headers endpoint message).filterMap fun kv => kv.2.map fun v => (kv.1, v)

/-- The single POST request issued by `dispatch_amqp_message`:
`client.post(endpoint.url, content=message.body, headers=headers)`. -/
def built_request (endpoint : EventEndpoint) (message : Message) : HttpRequest :=
  { method := "POST"
    url := endpoint.url
    content := message.body
    headers := request_headers endpoint message }

/-- The `match response.status_code` statement of `dispatch.py`, first match
wins, returning the sleeps performed and the outcome. The numeric literals
are the `fastapi.status` constants used by the source. -/
def classify (s : Nat) : List Nat × Outcome :=
  if 200 ≤ s ∧ s < 300 then
    ([], .ack)
  else if s = 408 ∨ s = 425 ∨ s = 429 ∨ s = 503 ∨ s = 504 then
    ([30], .requeue "Was going too fast")
  else if s = 451 then
    ([], .reject "We legally cannot process this")
  else if 400 ≤ s ∧ s < 500 then
    ([], .requeue "We send a bad request")
  else if s = 501 then
    ([], .requeue "Not implemented")
  else if 500 ≤ s then
    ([], .requeue "The server done goofed")
  else
    ([], .requeue ("Unexpected status-code: " ++ toString s))

/-- `dispatch_amqp_message` from `dispatch.py`: build the headers, send one
POST with the message body to the endpoint URL, and classify the response's
status code. `respond` is the HTTP transport. -/
def dispatch_amqp_message (endpoint : EventEndpoint) (message : Message)
    (respond : HttpRequest → Response) : DispatchResult :=
  let request := built_request endpoint message
  let response := respond request
  let c := classify response.status_code
  { requests := [request], sleeps := c.1, outcome := c.2 }

/-- One row of the spec's ordered rule table, as a function of the status. -/
structure Rule where
  cond : Nat → Bool
  sleeps : Nat → List Nat
  result : Nat → Outcome

/-- The spec's rule table (rules 1–6), written from the spec's words. -/
def spec_rule_table : List Rule :=
  [⟨fun s => 200 ≤ s && s < 300, fun _ => [], fun _ => .ack⟩,
   ⟨fun s => s == 408 || s == 425 || s == 429 || s == 503 || s == 504,
    fun _ => [30], fun _ => .requeue "Was going too fast"⟩,
   ⟨fun s => s == 451, fun _ => [], fun _ => .reject "We legally cannot process this"⟩,
   ⟨fun s => 400 ≤ s && s < 500, fun _ => [], fun _ => .requeue "We send a bad request"⟩,
   ⟨fun s => s == 501, fun _ => [], fun _ => .requeue "Not implemented"⟩,
   ⟨fun s => 500 ≤ s, fun _ => [], fun _ => .requeue "The server done goofed"⟩]

/-- First-match-wins evaluation of an ordered rule table; the fall-through is
the spec's rule 7. -/
def spec_first_match : List Rule → Nat → List Nat × Outcome
  | [], s => ([], .requeue ("Unexpected status-code: " ++ toString s))
  | r :: rs, s => if r.cond s then (r.sleeps s, r.result s) else spec_first_match rs s

/-- UTF-8 encoding of one character, as Python's `str.encode("utf-8")`
produces it. -/
def utf8Char (c : Char) : List Nat :=
  let n := c.toNat
  if n < 128 then [n]
  else if n < 2048 then [192 + n / 64, 128 + n % 64]
  else if n < 65536 then [224 + n / 4096, 128 + n / 64 % 64, 128 + n % 64]
  else [240 + n / 262144, 128 + n / 4096 % 64, 128 + n / 64 % 64, 128 + n % 64]

/-- UTF-8 byte encoding of a string. -/
def utf8Encode (s : String) : List Nat := (s.data.map utf8Char).flatten

/-- Right rotation by `n` of a 32-bit value. -/
def rotr32 (n x : Nat) : Nat := x / 2 ^ n + x % 2 ^ n * 2 ^ (32 - n)

/-- Bitwise complement on 32 bits. -/
def not32 (x : Nat) : Nat := Nat.xor x 4294967295

/-- The 64 SHA-256 round constants of FIPS 180-4. -/
def shaK : List Nat :=
  [1116352408, 1899447441, 3049323471, 3921009573, 961987163, 1508970993,
   2453635748, 2870763221, 3624381080, 310598401, 607225278, 1426881987,
   1925078388, 2162078206, 2614888103, 3248222580, 3835390401, 4022224774,
   264347078, 604807628, 770255983, 1249150122, 1555081692, 1996064986,
   2554220882, 2821834349, 2952996808, 3210313671, 3336571891, 3584528711,
   113926993, 338241895, 666307205, 773529912, 1294757372, 1396182291,
   1695183700, 1986661051, 2177026350, 2456956037, 2730485921, 2820302411,
   3259730800, 3345764771, 3516065817, 3600352804, 4094571909, 275423344,
   430227734, 506948616, 659060556, 883997877, 958139571, 1322822218,
   1537002063, 1747873779, 1955562222, 2024104815, 2227730452, 2361852424,
   2428436474, 2756734187, 3204031479, 3329325298]

/-- The initial SHA-256 hash state of FIPS 180-4. -/
def shaH0 : List Nat :=
  [1779033703, 3144134277, 1013904242, 2773480762,
   1359893119, 2600822924, 528734635, 1541459225]

/-- Big-endian byte representation of `x`, `n` bytes wide. -/
def beBytes : Nat → Nat → List Nat
  | 0, _ => []
  | n + 1, x => beBytes n (x / 256) ++ [x % 256]

/-- SHA-256 message padding: a `0x80` byte, zero bytes up to 56 mod 64, and
the 64-bit big-endian bit length. -/
def shaPad (msg : List Nat) : List Nat :=
  msg ++ [128] ++ List.replicate ((119 - msg.length % 64) % 64) 0
    ++ beBytes 8 (8 * msg.length)

/-- The sixteen big-endian 32-bit words of one 64-byte block. -/
def blockWords (block : List Nat) : List Nat :=
  (List.range 16).map fun i =>
    ((block.getD (4 * i) 0 * 256 + block.getD (4 * i + 1) 0) * 256
        + block.getD (4 * i + 2) 0) * 256 + block.getD (4 * i + 3) 0

/-- The 64-entry SHA-256 message schedule extending a block's 16 words. -/
def shaSchedule (ws : List Nat) : List Nat :=
  (List.range 48).foldl
    (fun w _ =>
      let i := w.length
      let x15 := w.getD (i - 15) 0
      let x2 := w.getD (i - 2) 0
      let s0 := Nat.xor (Nat.xor (rotr32 7 x15) (rotr32 18 x15)) (x15 / 8)
      let s1 := Nat.xor (Nat.xor (rotr32 17 x2) (rotr32 19 x2)) (x2 / 1024)
      w ++ [(w.getD (i - 16) 0 + s0 + w.getD (i - 7) 0 + s1) % 4294967296])
    ws

/-- One SHA-256 compression round on the 8-word working state. -/
def shaRound (st : List Nat) (kc w : Nat) : List Nat :=
  match st with
  | [a, b, c, d, e, f, g, h] =>
    let s1 := Nat.xor (Nat.xor (rotr32 6 e) (rotr32 11 e)) (rotr32 25 e)
    let ch := Nat.xor (Nat.land e f) (Nat.land (not32 e) g)
    let temp1 := (h + s1 + ch + kc + w) % 4294967296
    let s0 := Nat.xor (Nat.xor (rotr32 2 a) (rotr32 13 a)) (rotr32 22 a)
    let maj := Nat.xor (Nat.xor (Nat.land a b) (Nat.land a c)) (Nat.land b c)
    let temp2 := (s0 + maj) % 4294967296
    [(temp1 + temp2) % 4294967296, a, b, c, (d + temp1) % 4294967296, e, f, g]
  | st => st

/-- SHA-256 compression of one 64-byte block into the hash state. -/
def shaCompress (h : List Nat) (block : List Nat) : List Nat :=
  let w := shaSchedule (blockWords block)
  let st := (List.zip shaK w).foldl (fun st kw => shaRound st kw.1 kw.2) h
  (List.zip h st).map fun p => (p.1 + p.2) % 4294967296

/-- The padded message split into 64-byte blocks. -/
def shaBlocks (msg : List Nat) : List (List Nat) :=
  let padded := shaPad msg
  (List.range (padded.length / 64)).map fun i => (padded.drop (64 * i)).take 64

/-- The SHA-256 digest bytes of a byte message. -/
def sha256Bytes (msg : List Nat) : List Nat :=
  (((shaBlocks msg).foldl shaCompress shaH0).map (beBytes 4)).flatten

/-- One lowercase hexadecimal digit. -/
def hexChar (n : Nat) : Char :=
  if n < 10 then Char.ofNat (48 + n) else Char.ofNat (87 + n)

/-- Lowercase hexadecimal rendering of a byte list, as `hexdigest()`. -/
def hexString (bytes : List Nat) : String :=
  ⟨(bytes.map fun b => [hexChar (b / 16), hexChar (b % 16)]).flatten⟩

/-- Python's `hashlib.sha256(s.encode("utf-8")).hexdigest()`. -/
def sha256_hexdigest (s : String) : String := hexString (sha256Bytes (utf8Encode s))

/-- Python slicing `s[:n]` on a string. -/
def strTake (s : String) (n : Nat) : String := ⟨s.data.take n⟩

/-- One handler registration performed on the `Router` by
`create_amqpsystem`: `amqp_router.register(event.routing_key)(callable)`,
where the callable is `dispatch_amqp_message` partially applied to the
event and renamed to the computed handler name. -/
structure Registration where
  handler_name : String
  routing_key : String
  endpoint : EventEndpoint
deriving DecidableEq

/-- The `AMQPConnectionSettings` built by `create_amqpsystem`. The field
`queue_pfx` models the `queue_prefix` keyword of the source. -/
structure AMQPConnectionSettings where
  url : String
  exchange : String
  upstream_exchange : String
  queue_pfx : String
deriving DecidableEq

/-- The `AMQPSystem` returned by `create_amqpsystem`: its connection
settings and the router's registrations. -/
structure AMQPSystem where
  settings : AMQPConnectionSettings
  registrations : List Registration
deriving DecidableEq

/-- `create_amqpsystem` from `main.py`: the local `mapping_prefix` is
`f"{integration}_{upstream_exchange}"`, each handler name is
`f"{mapping_prefix}_{event.routing_key}_{url_hash}"` with `url_hash` the
first 8 hex characters of the SHA-256 of the UTF-8 encoded URL. -/
def create_amqpsystem (amqp_url integration upstream_exchange : String)
    (events : List EventEndpoint) : AMQPSystem :=
  let mapping_pfx := integration ++ "_" ++ upstream_exchange
  let registrations := events.map fun event =>
    { handler_name :=
        mapping_pfx ++ "_" ++ event.routing_key ++ "_"
          ++ strTake (sha256_hexdigest event.url) 8
      routing_key := event.routing_key
      endpoint := event : Registration }
  { settings :=
      { url := amqp_url
        exchange := mapping_pfx
        upstream_exchange := upstream_exchange
        queue_pfx := mapping_pfx }
    registrations := registrations }

/-- `config.py` `ExchangeMapping`: the queues of one upstream exchange. -/
structure ExchangeMapping where
  queues : List EventEndpoint
deriving DecidableEq

/-- `config.py` `IntegrationMapping`: exchange name → ExchangeMapping, a
pydantic dict (unique keys), modelled in iteration order. -/
structure IntegrationMapping where
  exchanges : List (String × ExchangeMapping)
deriving DecidableEq

/-- `config.py` `EventMapping`: integration name → IntegrationMapping. -/
structure EventMapping where
  integrations : List (String × IntegrationMapping)
deriving DecidableEq

/-- One `add_healthcheck` registration of `create_listeners`: the entry's
name and the `AMQPSystem` the check delegates to, via
`partial(healthcheck_amqp, amqpsystem)`. -/
structure Healthcheck where
  name : String
  system : AMQPSystem
deriving DecidableEq

/-- The observable registrations `create_listeners` performs on the
FastRAMQPI instance: lifespan managers, health checks, and the nested
`amqpsystems` context index. -/
structure ListenersResult where
  lifespans : List AMQPSystem
  healthchecks : List Healthcheck
  amqpsystems : List (String × List (String × AMQPSystem))
deriving DecidableEq

/-- The body of the nested loop of `create_listeners` for one
(integration, exchange) pair. -/
def listeners_step (amqp_url integration : String) (acc : ListenersResult)
    (econf : String × ExchangeMapping) : ListenersResult :=
  let amqpsystem := create_amqpsystem amqp_url integration econf.1 econf.2.queues
  { lifespans := acc.lifespans ++ [amqpsystem]
    healthchecks := acc.healthchecks ++
      [{ name := "AMQP_" ++ integration ++ "_" ++ econf.1, system := amqpsystem }]
    amqpsystems := dictInsert integration
      (dictInsert econf.1 amqpsystem ((dictGet integration acc.amqpsystems).getD []))
      acc.amqpsystems }

/-- `create_listeners` from `main.py`: iterate the mapping and register one
`AMQPSystem` lifespan and one health check per (integration, exchange). -/
def create_listeners (amqp_url : String) (event_mapping : EventMapping) :
    ListenersResult :=
  event_mapping.integrations.foldl
    (fun acc iconf => iconf.2.exchanges.foldl (listeners_step amqp_url iconf.1) acc)
    ⟨[], [], []⟩

/-- The (integration, exchange, exchange-config) triples of a mapping, in
iteration order. -/
def listener_pairs (integrations : List (String × IntegrationMapping)) :
    List (String × String × ExchangeMapping) :=
  integrations.flatMap fun iconf =>
    iconf.2.exchanges.map fun econf => (iconf.1, econf.1, econf.2)

/-- The code's classifier coincides with first-match evaluation of the
spec's ordered rule table. -/
theorem classify_eq_spec_first_match (s : Nat) :
    classify s = spec_first_match spec_rule_table s := by
  simp only [classify, spec_rule_table, spec_first_match, Bool.and_eq_true,
    Bool.or_eq_true, decide_eq_true_eq, beq_iff_eq]
  split_ifs <;> first | rfl | omega

/-- The sleeps performed by the classifier: exactly one 30-unit sleep in the
backpressure case, none otherwise. -/
theorem classify_sleeps (s : Nat) :
    (classify s).1 =
      if s = 408 ∨ s = 425 ∨ s = 429 ∨ s = 503 ∨ s = 504 then [30] else [] := by
  unfold classify
  split_ifs with h1 h2 h3 <;> first | rfl | omega

/-- Strings with equal character data are equal. -/
theorem string_eq_of_data (a b : String) (h : a.data = b.data) : a = b := by
  cases a; cases b; exact congrArg String.mk h

/-- Appending on the left is cancellative for strings. -/
theorem string_append_left_cancel (p a b : String) (h : p ++ a = p ++ b) : a = b := by
  have hd := congrArg String.data h
  rw [String.data_append, String.data_append] at hd
  exact string_eq_of_data a b (List.append_cancel_left hd)

/-- Appending on the right is cancellative for strings. -/
theorem string_append_right_cancel (a b e : String) (h : a ++ e = b ++ e) : a = b := by
  have hd := congrArg String.data h
  rw [String.data_append, String.data_append] at hd
  exact string_eq_of_data a b (List.append_cancel_right hd)

/-- A string that does not start with `p` is not `p ++ s` for any `s`. -/
theorem append_ne_of_take (p s t : String)
    (h : t.data.take p.data.length ≠ p.data) : p ++ s ≠ t := by
  intro he
  apply h
  rw [← congrArg String.data he, String.data_append, List.take_left]

theorem amqp_key_ne_content_type (a : String) :
    "X-AMQP-HEADER-" ++ a ≠ "Content-Type" :=
  append_ne_of_take _ _ _ (by decide)

theorem amqp_key_ne_content_encoding (a : String) :
    "X-AMQP-HEADER-" ++ a ≠ "Content-Encoding" :=
  append_ne_of_take _ _ _ (by decide)

theorem amqp_key_ne_correlation_id (a : String) :
    "X-AMQP-HEADER-" ++ a ≠ "X-Correlation-ID" :=
  append_ne_of_take _ _ _ (by decide)

theorem amqp_key_ne_message_id (a : String) :
    "X-AMQP-HEADER-" ++ a ≠ "X-Message-ID" :=
  append_ne_of_take _ _ _ (by decide)

theorem amqp_key_ne_routing_key (a : String) :
    "X-AMQP-HEADER-" ++ a ≠ "X-Routing-Key" :=
  append_ne_of_take _ _ _ (by decide)

/-- Looking up a key distinct from the inserted one is unchanged. -/
theorem dictGet_dictInsert_ne (k k' : String) (v : α) (l : List (String × α))
    (hne : k' ≠ k) : dictGet k (dictInsert k' v l) = dictGet k l := by
  induction l with
  | nil => simp [dictGet, dictInsert, hne]
  | cons kv rest ih =>
    by_cases h : kv.1 = k'
    · have h1 : ¬kv.1 = k := by rw [h]; exact hne
      simp only [dictInsert, if_pos h, dictGet, if_neg hne, if_neg h1]
    · simp only [dictInsert, if_neg h, dictGet]
      by_cases h2 : kv.1 = k
      · rw [if_pos h2, if_pos h2]
      · rw [if_neg h2, if_neg h2, ih]

/-- A key held by no entry looks up to `none`. -/
theorem dictGet_eq_none (k : String) (l : List (String × α))
    (h : ∀ p ∈ l, p.1 ≠ k) : dictGet k l = none := by
  induction l with
  | nil => rfl
  | cons kv rest ih =>
    simp only [dictGet, if_neg (h kv (List.mem_cons_self _ _))]
    exact ih fun p hp => h p (List.mem_cons_of_mem _ hp)

/-- Lookup over an append skips a first block without the key. -/
theorem dictGet_append_of_none (k : String) (l1 l2 : List (String × α))
    (h : dictGet k l1 = none) : dictGet k (l1 ++ l2) = dictGet k l2 := by
  induction l1 with
  | nil => rfl
  | cons kv rest ih =>
    by_cases hk : kv.1 = k
    · simp [dictGet, hk] at h
    · simp only [dictGet, if_neg hk] at h
      rw [List.cons_append]
      simp only [dictGet, if_neg hk]
      exact ih h

/-- Inserting a fresh key appends the entry at the end, as CPython does. -/
theorem dictInsert_of_fresh (k : String) (v : α) (l : List (String × α))
    (h : dictGet k l = none) : dictInsert k v l = l ++ [(k, v)] := by
  induction l with
  | nil => rfl
  | cons kv rest ih =>
    by_cases hk : kv.1 = k
    · simp [dictGet, hk] at h
    · simp only [dictGet, hk, if_false] at h
      simp only [dictInsert, hk, if_false, List.cons_append, ih h]

/-- Key membership after an insert. -/
theorem mem_keys_dictInsert (a k : String) (v : α) (l : List (String × α)) :
    a ∈ (dictInsert k v l).map Prod.fst ↔ a = k ∨ a ∈ l.map Prod.fst := by
  induction l with
  | nil => simp [dictInsert]
  | cons kv rest ih =>
    by_cases hk : kv.1 = k
    · subst hk
      simp [dictInsert]
    · simp only [dictInsert, hk, if_false, List.map_cons, List.mem_cons, ih]
      tauto

/-- Insertion preserves key uniqueness. -/
theorem nodupKeys_dictInsert (k : String) (v : α) (l : List (String × α))
    (h : (l.map Prod.fst).Nodup) : ((dictInsert k v l).map Prod.fst).Nodup := by
  induction l with
  | nil => simp [dictInsert]
  | cons kv rest ih =>
    rw [List.map_cons, List.nodup_cons] at h
    by_cases hk : kv.1 = k
    · subst hk
      simpa [dictInsert] using h
    · simp only [dictInsert, if_neg hk, List.map_cons, List.nodup_cons]
      refine ⟨fun hc => ?_, ih h.2⟩
      rcases (mem_keys_dictInsert _ _ _ _).mp hc with h1 | h2
      · exact hk h1
      · exact h.1 h2

/-- Every key of the filtered header dict is a key of the candidate dict. -/
theorem keys_filterMap_sub (l : List (String × Option String))
    (p : String × String)
    (hp : p ∈ l.filterMap fun kv => kv.2.map fun v => (kv.1, v)) :
    p.1 ∈ l.map Prod.fst := by
  rw [List.mem_filterMap] at hp
  obtain ⟨a, ha, hav⟩ := hp
  rw [Option.map_eq_some'] at hav
  obtain ⟨v, _, hv⟩ := hav
  rw [← hv]
  exact List.mem_map_of_mem Prod.fst ha

/-- On a dict with unique keys, filtering out `none` values commutes with
lookup: the filtered dict binds `k` to `v` exactly when the original binds
`k` to `some v`. -/
theorem dictGet_filterMap_some (k : String) (l : List (String × Option String))
    (hnd : (l.map Prod.fst).Nodup) :
    dictGet k (l.filterMap fun kv => kv.2.map fun v => (kv.1, v))
      = (dictGet k l).join := by
  induction l with
  | nil => rfl
  | cons kv rest ih =>
    rw [List.map_cons, List.nodup_cons] at hnd
    by_cases hk : kv.1 = k
    · subst hk
      match hv : kv.2 with
      | none =>
        simp only [List.filterMap_cons, hv, Option.map_none', dictGet, if_pos rfl,
          Option.join]
        exact dictGet_eq_none _ _ fun p hp hpk =>
          hnd.1 (hpk ▸ keys_filterMap_sub rest p hp)
      | some v =>
        simp [List.filterMap_cons, hv, dictGet, Option.join]
    · match hv : kv.2 with
      | none =>
        simp only [List.filterMap_cons, hv, Option.map_none', dictGet, hk, if_false]
        exact ih hnd.2
      | some v =>
        simp only [List.filterMap_cons, hv, Option.map_some', dictGet, hk, if_false]
        exact ih hnd.2

/-- Folding the `X-AMQP-HEADER-*` assignments over the header table does not
touch a key none of them carries. -/
theorem dictGet_fold_amqp (hs : List (String × PyVal)) (k : String)
    (hk : ∀ p ∈ hs, "X-AMQP-HEADER-" ++ p.1 ≠ k) :
    ∀ acc : List (String × Option String),
      dictGet k (hs.foldl
        (fun acc kv => dictInsert ("X-AMQP-HEADER-" ++ kv.1) (some kv.2.str) acc) acc)
        = dictGet k acc := by
  induction hs with
  | nil => intro acc; rfl
  | cons p rest ih =>
    intro acc
    rw [List.foldl_cons, ih (fun q hq => hk q (List.mem_cons_of_mem _ hq)),
      dictGet_dictInsert_ne _ _ _ _ (hk p (List.mem_cons_self _ _))]

/-- The fold of the `X-AMQP-HEADER-*` assignments preserves key uniqueness. -/
theorem nodupKeys_fold_amqp (hs : List (String × PyVal)) :
    ∀ acc : List (String × Option String), (acc.map Prod.fst).Nodup →
    ((hs.foldl
        (fun acc kv => dictInsert ("X-AMQP-HEADER-" ++ kv.1) (some kv.2.str) acc)
        acc).map Prod.fst).Nodup := by
  induction hs with
  | nil => intro acc h; exact h
  | cons p rest ih =>
    intro acc h
    exact ih _ (nodupKeys_dictInsert _ _ _ h)

/-- The candidate header dict always has pairwise distinct keys. -/
theorem nodupKeys_potential_headers (endpoint : EventEndpoint) (message : Message) :
    ((potential_headers endpoint message).map Prod.fst).Nodup :=
  nodupKeys_fold_amqp _ _ (by
    simp only [List.map_cons, List.map_nil]
    decide)

/-- At the five fixed candidate keys, the candidate dict looks up to the
corresponding base entry: the message-header fold never touches them. -/
theorem potential_headers_lookup_base (endpoint : EventEndpoint) (message : Message)
    (k : String) (hk : ∀ p ∈ message.headers, "X-AMQP-HEADER-" ++ p.1 ≠ k) :
    dictGet k (potential_headers endpoint message) =
      dictGet k
        [("Content-Type", message.content_type),
         ("Content-Encoding", message.content_encoding),
         ("X-Correlation-ID", message.correlation_id),
         ("X-Message-ID", message.message_id),
         ("X-Routing-Key", some endpoint.routing_key)] :=
  dictGet_fold_amqp _ _ hk _

/-- Outgoing-request lookup of one of the five fixed candidate keys. -/
theorem request_headers_lookup_base (endpoint : EventEndpoint) (message : Message)
    (k : String) (hk : ∀ p ∈ message.headers, "X-AMQP-HEADER-" ++ p.1 ≠ k) :
    dictGet k (request_headers endpoint message) =
      (dictGet k
        [("Content-Type", message.content_type),
         ("Content-Encoding", message.content_encoding),
         ("X-Correlation-ID", message.correlation_id),
         ("X-Message-ID", message.message_id),
         ("X-Routing-Key", some endpoint.routing_key)]).join := by
  unfold request_headers
  rw [dictGet_filterMap_some _ _ (nodupKeys_potential_headers endpoint message),
    potential_headers_lookup_base endpoint message k hk]

/-- With unique header keys (a Python dict guarantees this), the candidate
dict is the five base entries followed by one prefixed entry per message
header, in order. -/
theorem potential_headers_structure (endpoint : EventEndpoint) (message : Message)
    (hnd : (message.headers.map Prod.fst).Nodup) :
    potential_headers endpoint message =
      [("Content-Type", message.content_type),
       ("Content-Encoding", message.content_encoding),
       ("X-Correlation-ID", message.correlation_id),
       ("X-Message-ID", message.message_id),
       ("X-Routing-Key", some endpoint.routing_key)]
      ++ message.headers.map fun kv => ("X-AMQP-HEADER-" ++ kv.1, some kv.2.str) := by
  have gen : ∀ hs : List (String × PyVal), (hs.map Prod.fst).Nodup →
      ∀ acc : List (String × Option String),
      (∀ p ∈ hs, dictGet ("X-AMQP-HEADER-" ++ p.1) acc = none) →
      hs.foldl (fun acc kv => dictInsert ("X-AMQP-HEADER-" ++ kv.1) (some kv.2.str) acc) acc
        = acc ++ hs.map fun kv => ("X-AMQP-HEADER-" ++ kv.1, some kv.2.str) := by
    intro hs
    induction hs with
    | nil => intro _ acc _; simp
    | cons p rest ih =>
      intro hnd acc hfresh
      rw [List.map_cons, List.nodup_cons] at hnd
      have hfresh2 : ∀ q ∈ rest,
          dictGet ("X-AMQP-HEADER-" ++ q.1)
            (acc ++ [("X-AMQP-HEADER-" ++ p.1, some p.2.str)]) = none := by
        intro q hq
        rw [dictGet_append_of_none _ _ _ (hfresh q (List.mem_cons_of_mem _ hq))]
        refine dictGet_eq_none _ _ ?_
        intro r hr
        rw [List.mem_singleton] at hr
        subst hr
        intro hc
        have hpq : p.1 = q.1 := string_append_left_cancel _ _ _ hc
        apply hnd.1
        rw [hpq]
        exact List.mem_map_of_mem Prod.fst hq
      rw [List.foldl_cons,
        dictInsert_of_fresh _ _ _ (hfresh p (List.mem_cons_self _ _)),
        ih hnd.2 _ hfresh2]
      simp
  unfold potential_headers
  refine gen message.headers hnd _ ?_
  intro p _
  refine dictGet_eq_none _ _ ?_
  intro r hr
  fin_cases hr
  · exact (amqp_key_ne_content_type p.1).symm
  · exact (amqp_key_ne_content_encoding p.1).symm
  · exact (amqp_key_ne_correlation_id p.1).symm
  · exact (amqp_key_ne_message_id p.1).symm
  · exact (amqp_key_ne_routing_key p.1).symm

/-- With unique header keys, the outgoing headers are the non-absent base
entries followed by one `X-AMQP-HEADER-*` entry per message header. -/
theorem request_headers_structure (endpoint : EventEndpoint) (message : Message)
    (hnd : (message.headers.map Prod.fst).Nodup) :
    request_headers endpoint message =
      ([("Content-Type", message.content_type),
        ("Content-Encoding", message.content_encoding),
        ("X-Correlation-ID", message.correlation_id),
        ("X-Message-ID", message.message_id),
        ("X-Routing-Key", some endpoint.routing_key)].filterMap
          fun kv => kv.2.map fun v => (kv.1, v))
      ++ message.headers.map fun kv => ("X-AMQP-HEADER-" ++ kv.1, kv.2.str) := by
  unfold request_headers
  rw [potential_headers_structure endpoint message hnd, List.filterMap_append]
  congr 1
  generalize message.headers = hs
  induction hs with
  | nil => rfl
  | cons p rest ih =>
    simp only [List.map_cons, List.filterMap_cons, Option.map_some', ih]

/-- Lookup of a prefixed key in the forwarded message-header block. -/
theorem dictGet_amqp_map (hs : List (String × PyVal)) (k : String) (v : PyVal)
    (hnd : (hs.map Prod.fst).Nodup) (hmem : (k, v) ∈ hs) :
    dictGet ("X-AMQP-HEADER-" ++ k)
        (hs.map fun kv => ("X-AMQP-HEADER-" ++ kv.1, kv.2.str)) = some v.str := by
  induction hs with
  | nil => cases hmem
  | cons q rest ih =>
    rw [List.map_cons, List.nodup_cons] at hnd
    rcases List.mem_cons.mp hmem with heq | hmem2
    · rw [← heq]
      simp [dictGet]
    · have hq : ¬("X-AMQP-HEADER-" ++ q.1 = "X-AMQP-HEADER-" ++ k) := by
        intro hc
        apply hnd.1
        rw [string_append_left_cancel _ _ _ hc]
        exact List.mem_map_of_mem Prod.fst hmem2
      simp only [List.map_cons, dictGet, if_neg hq]
      exact ih hnd.2 hmem2

/-- A present message header contributes exactly one outgoing entry. -/
theorem countP_amqp_map_eq_one (hs : List (String × PyVal)) (k : String)
    (hnd : (hs.map Prod.fst).Nodup) (hk : k ∈ hs.map Prod.fst) :
    (hs.map fun kv => ("X-AMQP-HEADER-" ++ kv.1, kv.2.str)).countP
      (fun kv => kv.1 == "X-AMQP-HEADER-" ++ k) = 1 := by
  induction hs with
  | nil => cases hk
  | cons q rest ih =>
    rw [List.map_cons, List.nodup_cons] at hnd
    rw [List.map_cons, List.countP_cons]
    rcases List.mem_cons.mp hk with heq | hmem
    · have hz : (rest.map fun kv => ("X-AMQP-HEADER-" ++ kv.1, kv.2.str)).countP
          (fun kv => kv.1 == "X-AMQP-HEADER-" ++ k) = 0 := by
        refine List.countP_eq_zero.mpr ?_
        intro a ha
        rw [List.mem_map] at ha
        obtain ⟨b, hb, hba⟩ := ha
        rw [← hba]
        simp only [beq_iff_eq]
        intro hc
        apply hnd.1
        rw [← heq, ← string_append_left_cancel _ _ _ hc]
        exact List.mem_map_of_mem Prod.fst hb
      rw [hz, heq]
      simp
    · have hqk : ((("X-AMQP-HEADER-" ++ q.1, q.2.str) : String × String).1
          == "X-AMQP-HEADER-" ++ k) = false := by
        simp only [beq_eq_false_iff_ne, ne_eq]
        intro hc
        apply hnd.1
        rw [string_append_left_cancel _ _ _ hc]
        exact hmem
      rw [hqk]
      simpa using ih hnd.2 hmem

/-- C1: for every HTTP response status code, `dispatch_amqp_message` yields
exactly the outcome of the first matching rule of the ordered table
(2xx → ack; {408,425,429,503,504} → sleep 30 then requeue "Was going too
fast"; 451 → reject "We legally cannot process this"; [400,500) → requeue
"We send a bad request"; 501 → requeue "Not implemented"; ≥ 500 → requeue
"The server done goofed"; otherwise requeue "Unexpected status-code: {s}"),
and the 30-unit sleep occurs in the backpressure case only. -/
theorem C1_dispatch_matches_ordered_rule_table (endpoint : EventEndpoint)
    (message : Message) (respond : HttpRequest → Response) :
    ((dispatch_amqp_message endpoint message respond).sleeps,
        (dispatch_amqp_message endpoint message respond).outcome) =
      spec_first_match spec_rule_table
        (respond (built_request endpoint message)).status_code
    ∧ (dispatch_amqp_message endpoint message respond).sleeps =
        (if (respond (built_request endpoint message)).status_code = 408
            ∨ (respond (built_request endpoint message)).status_code = 425
            ∨ (respond (built_request endpoint message)).status_code = 429
            ∨ (respond (built_request endpoint message)).status_code = 503
            ∨ (respond (built_request endpoint message)).status_code = 504
          then [30] else []) := by
  refine ⟨?_, classify_sleeps _⟩
  rw [← classify_eq_spec_first_match]
  rfl

/-- C9: every invocation of `dispatch_amqp_message` performs exactly one
HTTP POST, addressed to `endpoint.url`, whose body is `message.body`
byte-for-byte, whatever outcome the response produces; no second request is
issued within a single dispatch. -/
theorem C9_exactly_one_post (endpoint : EventEndpoint) (message : Message)
    (respond : HttpRequest → Response) :
    (dispatch_amqp_message endpoint message respond).requests =
        [built_request endpoint message]
    ∧ (built_request endpoint message).method = "POST"
    ∧ (built_request endpoint message).url = endpoint.url
    ∧ (built_request endpoint message).content = message.body :=
  ⟨rfl, rfl, rfl, rfl⟩

/-- C10: the outcome of `dispatch_amqp_message` — ack versus requeue versus
reject, the reason string, and the sleeps performed — is a function of the
HTTP response status code alone: two invocations whose responses carry equal
status codes produce identical outcomes and sleeps, regardless of message,
endpoint, or response body. -/
theorem C10_outcome_depends_only_on_status (e1 e2 : EventEndpoint)
    (m1 m2 : Message) (r1 r2 : HttpRequest → Response)
    (h : (r1 (built_request e1 m1)).status_code
        = (r2 (built_request e2 m2)).status_code) :
    (dispatch_amqp_message e1 m1 r1).outcome
        = (dispatch_amqp_message e2 m2 r2).outcome
    ∧ (dispatch_amqp_message e1 m1 r1).sleeps
        = (dispatch_amqp_message e2 m2 r2).sleeps := by
  have ho : (dispatch_amqp_message e1 m1 r1).outcome
      = (classify (r1 (built_request e1 m1)).status_code).2 := rfl
  have hs : (dispatch_amqp_message e1 m1 r1).sleeps
      = (classify (r1 (built_request e1 m1)).status_code).1 := rfl
  rw [ho, hs, h]
  exact ⟨rfl, rfl⟩

/-- Witness for C10 at concrete inputs: two dispatches with different
endpoints, messages and response bodies but the same status code 204. -/
theorem C10_outcome_depends_only_on_status_witness :
    (dispatch_amqp_message ⟨"rk1", "http://a/"⟩
          ⟨none, none, none, none, [], []⟩ (fun _ => ⟨204, []⟩)).outcome
        = (dispatch_amqp_message ⟨"rk2", "http://b/"⟩
          ⟨some "t", some "e", some "c", some "m", [("k", .pyNone)], [1, 2]⟩
          (fun _ => ⟨204, [7]⟩)).outcome
    ∧ (dispatch_amqp_message ⟨"rk1", "http://a/"⟩
          ⟨none, none, none, none, [], []⟩ (fun _ => ⟨204, []⟩)).sleeps
        = (dispatch_amqp_message ⟨"rk2", "http://b/"⟩
          ⟨some "t", some "e", some "c", some "m", [("k", .pyNone)], [1, 2]⟩
          (fun _ => ⟨204, [7]⟩)).sleeps :=
  C10_outcome_depends_only_on_status _ _ _ _ _ _ rfl

/-- FIPS 180-4 test vectors pinning the SHA-256 embedding to the function
`hashlib.sha256` computes. -/
theorem sha256_test_vectors :
    sha256_hexdigest ""
        = "e3b0c44298fc1c149afbf4c8996fb92427ae41e4649b934ca495991b7852b855"
    ∧ sha256_hexdigest "abc"
        = "ba7816bf8f01cfea414140de5dae2223b00361a396177a9cb410ff61f20015ad" :=
  ⟨by decide, by decide⟩

/-- Splitting a character list at an underscore is unambiguous when the
left parts are underscore-free. -/
theorem underscore_split_inj (p1 : List Char) :
    ∀ p2 q1 q2 : List Char, '_' ∉ p1 → '_' ∉ p2 →
    p1 ++ '_' :: q1 = p2 ++ '_' :: q2 → p1 = p2 ∧ q1 = q2 := by
  induction p1 with
  | nil =>
    intro p2 q1 q2 _ h2 he
    cases p2 with
    | nil => simpa using he
    | cons c p2' =>
      rw [List.nil_append, List.cons_append] at he
      have hc : c = '_' := (List.cons.inj he).1.symm
      refine absurd ?_ h2
      rw [← hc]
      exact List.mem_cons_self _ _
  | cons c p1' ih =>
    intro p2 q1 q2 h1 h2 he
    cases p2 with
    | nil =>
      rw [List.cons_append, List.nil_append] at he
      have hc : c = '_' := (List.cons.inj he).1
      refine absurd ?_ h1
      rw [← hc]
      exact List.mem_cons_self _ _
    | cons d p2' =>
      rw [List.cons_append, List.cons_append] at he
      have hcd := (List.cons.inj he).1
      have h1' : '_' ∉ p1' := fun hm => h1 (List.mem_cons_of_mem _ hm)
      have h2' : '_' ∉ p2' := fun hm => h2 (List.mem_cons_of_mem _ hm)
      obtain ⟨hp, hq⟩ := ih p2' q1 q2 h1' h2' (List.cons.inj he).2
      exact ⟨by rw [hcd, hp], hq⟩

/-- The identity (i, e) ↦ i ++ "_" ++ e is injective on pairs whose
integration name is underscore-free. -/
theorem underscore_ident_inj (i1 e1 i2 e2 : String)
    (h1 : '_' ∉ i1.data) (h2 : '_' ∉ i2.data)
    (he : i1 ++ "_" ++ e1 = i2 ++ "_" ++ e2) : i1 = i2 ∧ e1 = e2 := by
  have hd := congrArg String.data he
  rw [String.data_append, String.data_append, String.data_append,
    String.data_append] at hd
  have hu : ("_" : String).data = ['_'] := rfl
  rw [hu, List.append_assoc, List.append_assoc, List.singleton_append,
    List.singleton_append] at hd
  obtain ⟨hp, hq⟩ := underscore_split_inj i1.data i2.data e1.data e2.data h1 h2 hd
  exact ⟨string_eq_of_data _ _ hp, string_eq_of_data _ _ hq⟩

/-- `create_amqpsystem` (with one broker URL) determines its integration,
exchange and event list: the settings store `e` directly and `i ++ "_" ++ e`,
and each registration stores its endpoint. -/
theorem create_amqpsystem_inj (amqp_url i1 e1 : String)
    (q1 : List EventEndpoint) (i2 e2 : String) (q2 : List EventEndpoint)
    (h : create_amqpsystem amqp_url i1 e1 q1
        = create_amqpsystem amqp_url i2 e2 q2) :
    i1 = i2 ∧ e1 = e2 ∧ q1 = q2 := by
  have hs := congrArg AMQPSystem.settings h
  have hup : e1 = e2 := congrArg AMQPConnectionSettings.upstream_exchange hs
  have hex : i1 ++ "_" ++ e1 = i2 ++ "_" ++ e2 :=
    congrArg AMQPConnectionSettings.exchange hs
  have hi : i1 = i2 := by
    rw [hup] at hex
    exact string_append_right_cancel _ _ _ (string_append_right_cancel _ _ _ hex)
  have hr := congrArg (fun s => s.registrations.map Registration.endpoint) h
  simp only [create_amqpsystem, List.map_map] at hr
  have hq : q1 = q2 := by
    have hid : ∀ q : List EventEndpoint,
        q.map (Registration.endpoint ∘ fun event =>
          ({ handler_name := (i1 ++ "_" ++ e1) ++ "_" ++ event.routing_key ++ "_"
               ++ strTake (sha256_hexdigest event.url) 8
             routing_key := event.routing_key
             endpoint := event } : Registration)) = q := by
      intro q
      rw [show (Registration.endpoint ∘ fun event =>
          ({ handler_name := (i1 ++ "_" ++ e1) ++ "_" ++ event.routing_key ++ "_"
               ++ strTake (sha256_hexdigest event.url) 8
             routing_key := event.routing_key
             endpoint := event } : Registration)) = id from rfl, List.map_id]
    calc q1 = q1.map _ := (hid q1).symm
      _ = q2 := by rw [hr]; exact hid q2
  exact ⟨hi, hup, hq⟩

/-- The inner loop of `create_listeners` appends one lifespan and one
health check per exchange, in order. -/
theorem listeners_inner_loop (amqp_url i : String)
    (exs : List (String × ExchangeMapping)) :
    ∀ acc : ListenersResult,
      ((exs.foldl (listeners_step amqp_url i) acc).lifespans
          = acc.lifespans
            ++ exs.map fun econf =>
              create_amqpsystem amqp_url i econf.1 econf.2.queues)
      ∧ ((exs.foldl (listeners_step amqp_url i) acc).healthchecks
          = acc.healthchecks
            ++ exs.map fun econf =>
              { name := "AMQP_" ++ i ++ "_" ++ econf.1
                system := create_amqpsystem amqp_url i econf.1 econf.2.queues }) := by
  induction exs with
  | nil => intro acc; simp
  | cons q rest ih =>
    intro acc
    rw [List.foldl_cons]
    obtain ⟨hl, hh⟩ := ih (listeners_step amqp_url i acc q)
    refine ⟨?_, ?_⟩
    · rw [hl]
      simp [listeners_step]
    · rw [hh]
      simp [listeners_step]

/-- `create_listeners` registers exactly the systems and health checks of
the (integration, exchange) pairs, in iteration order. -/
theorem create_listeners_characterization (amqp_url : String)
    (event_mapping : EventMapping) :
    ((create_listeners amqp_url event_mapping).lifespans
        = (listener_pairs event_mapping.integrations).map fun p =>
            create_amqpsystem amqp_url p.1 p.2.1 p.2.2.queues)
    ∧ ((create_listeners amqp_url event_mapping).healthchecks
        = (listener_pairs event_mapping.integrations).map fun p =>
            { name := "AMQP_" ++ p.1 ++ "_" ++ p.2.1
              system := create_amqpsystem amqp_url p.1 p.2.1 p.2.2.queues }) := by
  have gen : ∀ l : List (String × IntegrationMapping), ∀ acc : ListenersResult,
      ((l.foldl
          (fun acc iconf =>
            iconf.2.exchanges.foldl (listeners_step amqp_url iconf.1) acc)
          acc).lifespans
        = acc.lifespans ++ (listener_pairs l).map fun p =>
            create_amqpsystem amqp_url p.1 p.2.1 p.2.2.queues)
      ∧ ((l.foldl
          (fun acc iconf =>
            iconf.2.exchanges.foldl (listeners_step amqp_url iconf.1) acc)
          acc).healthchecks
        = acc.healthchecks ++ (listener_pairs l).map fun p =>
            { name := "AMQP_" ++ p.1 ++ "_" ++ p.2.1
              system := create_amqpsystem amqp_url p.1 p.2.1 p.2.2.queues }) := by
    intro l
    induction l with
    | nil => intro acc; simp [listener_pairs]
    | cons q rest ih =>
      intro acc
      rw [List.foldl_cons]
      obtain ⟨hl, hh⟩ :=
        ih (q.2.exchanges.foldl (listeners_step amqp_url q.1) acc)
      obtain ⟨hl2, hh2⟩ := listeners_inner_loop amqp_url q.1 q.2.exchanges acc
      constructor
      · rw [hl, hl2, List.append_assoc]
        simp [listener_pairs, List.map_map, Function.comp]
      · rw [hh, hh2, List.append_assoc]
        simp [listener_pairs, List.map_map, Function.comp]
  obtain ⟨h1, h2⟩ := gen event_mapping.integrations ⟨[], [], []⟩
  unfold create_listeners
  exact ⟨by rw [h1]; rfl, by rw [h2]; rfl⟩

/-- Every listener pair's integration name is a key of the mapping. -/
theorem listener_pairs_key_mem (l : List (String × IntegrationMapping))
    (pr : String × String × ExchangeMapping) (hpr : pr ∈ listener_pairs l) :
    pr.1 ∈ l.map Prod.fst := by
  rw [listener_pairs, List.mem_flatMap] at hpr
  obtain ⟨q, hq, hpr2⟩ := hpr
  rw [List.mem_map] at hpr2
  obtain ⟨ec, _, hec⟩ := hpr2
  rw [← hec]
  exact List.mem_map_of_mem Prod.fst hq

/-- An entry of an association list with unique keys occurs exactly once. -/
theorem countP_assoc_eq_one {α : Type} [DecidableEq α]
    (exs : List (String × α)) (e : String) (ec : α)
    (hnd : (exs.map Prod.fst).Nodup) (he : (e, ec) ∈ exs) :
    exs.countP (fun p => p == (e, ec)) = 1 := by
  induction exs with
  | nil => cases he
  | cons q rest ih =>
    rw [List.map_cons, List.nodup_cons] at hnd
    rw [List.countP_cons]
    rcases List.mem_cons.mp he with heq | hmem
    · have hz : rest.countP (fun p => p == (e, ec)) = 0 := by
        refine List.countP_eq_zero.mpr ?_
        intro a ha
        simp only [beq_iff_eq]
        intro hc
        apply hnd.1
        rw [← heq]
        have : e ∈ rest.map Prod.fst := by
          rw [← show a.1 = e from congrArg Prod.fst hc]
          exact List.mem_map_of_mem Prod.fst ha
        exact this
      rw [hz, ← heq]
      simp
    · have hq : (q == (e, ec)) = false := by
        simp only [beq_eq_false_iff_ne, ne_eq]
        intro hc
        apply hnd.1
        rw [show q.1 = e from congrArg Prod.fst hc]
        exact List.mem_map_of_mem Prod.fst hmem
      rw [hq]
      simpa using ih hnd.2 hmem

/-- With unique integration keys and unique exchange keys, each present
(integration, exchange, config) triple occurs exactly once among the
listener pairs. -/
theorem countP_listener_pairs :
    ∀ l : List (String × IntegrationMapping), (l.map Prod.fst).Nodup →
    (∀ p ∈ l, (p.2.exchanges.map Prod.fst).Nodup) →
    ∀ (i : String) (ic : IntegrationMapping) (e : String) (ec : ExchangeMapping),
    (i, ic) ∈ l → (e, ec) ∈ ic.exchanges →
    (listener_pairs l).countP
      (fun pr => pr == ((i, e, ec) : String × String × ExchangeMapping)) = 1 := by
  intro l
  induction l with
  | nil => intro _ _ i ic e ec hi _; cases hi
  | cons q rest ih =>
    intro h1 h2 i ic e ec hi he
    rw [List.map_cons, List.nodup_cons] at h1
    have hsplit : listener_pairs (q :: rest)
        = (q.2.exchanges.map fun econf => (q.1, econf.1, econf.2))
          ++ listener_pairs rest := by
      simp [listener_pairs]
    rw [hsplit, List.countP_append]
    rcases List.mem_cons.mp hi with heq | hmem
    · have hrest : (listener_pairs rest).countP
          (fun pr => pr == ((i, e, ec) : String × String × ExchangeMapping)) = 0 := by
        refine List.countP_eq_zero.mpr ?_
        intro pr hpr
        simp only [beq_iff_eq]
        intro hc
        apply h1.1
        rw [← heq]
        have hkey := listener_pairs_key_mem rest pr hpr
        rw [hc] at hkey
        exact hkey
      have hinner : (q.2.exchanges.map fun econf => (q.1, econf.1, econf.2)).countP
          (fun pr => pr == ((i, e, ec) : String × String × ExchangeMapping)) = 1 := by
        rw [List.countP_map]
        have hcongr := List.countP_congr (l := q.2.exchanges)
          (p := (fun pr => pr == ((i, e, ec) : String × String × ExchangeMapping))
            ∘ fun econf => (q.1, econf.1, econf.2))
          (q := fun p => p == (e, ec)) ?_
        · rw [hcongr]
          refine countP_assoc_eq_one q.2.exchanges e ec ?_ ?_
          · exact h2 q (List.mem_cons_self _ _)
          · rw [← heq]
            exact he
        · intro a _
          simp only [Function.comp, beq_iff_eq, Prod.mk.injEq, Prod.ext_iff]
          constructor
          · intro hc
            exact ⟨hc.2.1, hc.2.2⟩
          · intro hc
            refine ⟨?_, hc.1, hc.2⟩
            rw [← heq]
      rw [hinner, hrest]
    · have hinner : (q.2.exchanges.map fun econf => (q.1, econf.1, econf.2)).countP
          (fun pr => pr == ((i, e, ec) : String × String × ExchangeMapping)) = 0 := by
        refine List.countP_eq_zero.mpr ?_
        intro pr hpr
        rw [List.mem_map] at hpr
        obtain ⟨ec2, _, hec2⟩ := hpr
        simp only [beq_iff_eq]
        intro hc
        apply h1.1
        have : q.1 = i := by
          rw [← hec2] at hc
          exact congrArg Prod.fst hc
        rw [this]
        exact List.mem_map_of_mem Prod.fst hmem
      rw [hinner, Nat.zero_add]
      exact ih h1.2 (fun p hp => h2 p (List.mem_cons_of_mem _ hp)) i ic e ec hmem he

/-- C3: each of the five candidate headers is bound in the outgoing request
to exactly its source value: it is omitted exactly when the source is
absent, a present-but-empty value is still sent as an empty header, and
`X-Routing-Key` is always present with the endpoint's routing key. -/
theorem C3_candidate_header_omitted_iff_absent (endpoint : EventEndpoint)
    (message : Message) :
    dictGet "Content-Type" (request_headers endpoint message)
        = message.content_type
    ∧ dictGet "Content-Encoding" (request_headers endpoint message)
        = message.content_encoding
    ∧ dictGet "X-Correlation-ID" (request_headers endpoint message)
        = message.correlation_id
    ∧ dictGet "X-Message-ID" (request_headers endpoint message)
        = message.message_id
    ∧ dictGet "X-Routing-Key" (request_headers endpoint message)
        = some endpoint.routing_key := by
  refine ⟨?_, ?_, ?_, ?_, ?_⟩
  · rw [request_headers_lookup_base _ _ _ fun p _ => amqp_key_ne_content_type p.1]
    simp [dictGet, Option.join]
  · rw [request_headers_lookup_base _ _ _ fun p _ => amqp_key_ne_content_encoding p.1]
    simp [dictGet, Option.join]
  · rw [request_headers_lookup_base _ _ _ fun p _ => amqp_key_ne_correlation_id p.1]
    simp [dictGet, Option.join]
  · rw [request_headers_lookup_base _ _ _ fun p _ => amqp_key_ne_message_id p.1]
    simp [dictGet, Option.join]
  · rw [request_headers_lookup_base _ _ _ fun p _ => amqp_key_ne_routing_key p.1]
    simp [dictGet, Option.join]

/-- Counterexample to C2 as stated: a message lacking correlation id,
content-type and content-encoding whose message id is also absent yields a
request without `X-Message-ID`, so the outgoing headers do not always
contain `X-Message-ID`. -/
theorem C2_counterexample :
    (Message.mk none none none none [] []).correlation_id = none
    ∧ (Message.mk none none none none [] []).content_type = none
    ∧ (Message.mk none none none none [] []).content_encoding = none
    ∧ dictGet "X-Message-ID"
        (request_headers ⟨"person", "http://integration/trigger/"⟩
          (Message.mk none none none none [] [])) = none := by
  refine ⟨rfl, rfl, rfl, ?_⟩
  decide

/-- C2 (amended): a request built from a message lacking correlation id,
content-type and content-encoding, but whose message id is present,
contains none of `Content-Type`, `Content-Encoding`, `X-Correlation-ID`,
contains both `X-Message-ID` and `X-Routing-Key`, and contains exactly one
`X-AMQP-HEADER-{key}` entry per entry of the message's header table. -/
theorem C2_absent_properties_omitted (endpoint : EventEndpoint)
    (message : Message)
    (hnd : (message.headers.map Prod.fst).Nodup)
    (hct : message.content_type = none)
    (hce : message.content_encoding = none)
    (hci : message.correlation_id = none)
    (mid : String) (hmi : message.message_id = some mid) :
    dictGet "Content-Type" (request_headers endpoint message) = none
    ∧ dictGet "Content-Encoding" (request_headers endpoint message) = none
    ∧ dictGet "X-Correlation-ID" (request_headers endpoint message) = none
    ∧ dictGet "X-Message-ID" (request_headers endpoint message) = some mid
    ∧ dictGet "X-Routing-Key" (request_headers endpoint message)
        = some endpoint.routing_key
    ∧ ∀ p ∈ message.headers,
        (request_headers endpoint message).countP
          (fun kv => kv.1 == "X-AMQP-HEADER-" ++ p.1) = 1 := by
  refine ⟨?_, ?_, ?_, ?_, ?_, ?_⟩
  · rw [request_headers_lookup_base _ _ _ fun p _ => amqp_key_ne_content_type p.1,
      hct]
    simp [dictGet, Option.join]
  · rw [request_headers_lookup_base _ _ _ fun p _ => amqp_key_ne_content_encoding p.1,
      hce]
    simp [dictGet, Option.join]
  · rw [request_headers_lookup_base _ _ _ fun p _ => amqp_key_ne_correlation_id p.1,
      hci]
    simp [dictGet, Option.join]
  · rw [request_headers_lookup_base _ _ _ fun p _ => amqp_key_ne_message_id p.1,
      hmi]
    simp [dictGet, Option.join]
  · rw [request_headers_lookup_base _ _ _ fun p _ => amqp_key_ne_routing_key p.1]
    simp [dictGet, Option.join]
  · intro p hp
    rw [request_headers_structure endpoint message hnd, List.countP_append]
    have hbase : ([("Content-Type", message.content_type),
        ("Content-Encoding", message.content_encoding),
        ("X-Correlation-ID", message.correlation_id),
        ("X-Message-ID", message.message_id),
        ("X-Routing-Key", some endpoint.routing_key)].filterMap
          fun kv => kv.2.map fun v => (kv.1, v)).countP
        (fun kv => kv.1 == "X-AMQP-HEADER-" ++ p.1) = 0 := by
      refine List.countP_eq_zero.mpr ?_
      intro a ha
      have hk := keys_filterMap_sub _ a ha
      simp only [List.map_cons, List.map_nil, List.mem_cons,
        List.not_mem_nil, or_false] at hk
      simp only [beq_iff_eq]
      rcases hk with h | h | h | h | h <;> rw [h]
      · exact (amqp_key_ne_content_type p.1).symm
      · exact (amqp_key_ne_content_encoding p.1).symm
      · exact (amqp_key_ne_correlation_id p.1).symm
      · exact (amqp_key_ne_message_id p.1).symm
      · exact (amqp_key_ne_routing_key p.1).symm
    rw [hbase, Nat.zero_add]
    exact countP_amqp_map_eq_one message.headers p.1 hnd
      (List.mem_map_of_mem Prod.fst hp)

/-- Witness for the amended C2 at a concrete message: no correlation id,
content-type or content-encoding, message id `"mid1"`, one header entry. -/
theorem C2_absent_properties_omitted_witness :
    dictGet "Content-Type" (request_headers ⟨"rk", "http://u/"⟩
        (Message.mk none none none (some "mid1") [("k1", .pyStr "w")] [])) = none
    ∧ dictGet "X-Message-ID" (request_headers ⟨"rk", "http://u/"⟩
        (Message.mk none none none (some "mid1") [("k1", .pyStr "w")] []))
        = some "mid1"
    ∧ dictGet "X-Routing-Key" (request_headers ⟨"rk", "http://u/"⟩
        (Message.mk none none none (some "mid1") [("k1", .pyStr "w")] []))
        = some "rk"
    ∧ (request_headers ⟨"rk", "http://u/"⟩
        (Message.mk none none none (some "mid1") [("k1", .pyStr "w")] [])).countP
          (fun kv => kv.1 == "X-AMQP-HEADER-" ++ "k1") = 1 := by
  have h := C2_absent_properties_omitted ⟨"rk", "http://u/"⟩
    (Message.mk none none none (some "mid1") [("k1", .pyStr "w")] [])
    (by decide) rfl rfl rfl "mid1" rfl
  exact ⟨h.1, h.2.2.2.1, h.2.2.2.2.1,
    h.2.2.2.2.2 ("k1", .pyStr "w") (List.mem_cons_self _ _)⟩

/-- C8: every entry `(k, v)` of the message's header table is forwarded as
header `X-AMQP-HEADER-{k}` with value `str(v)`; the string conversion never
yields an absent value, so these entries are never dropped — in particular
a `None` header value is forwarded as the literal string `"None"`. -/
theorem C8_amqp_headers_never_dropped (endpoint : EventEndpoint)
    (message : Message) (hnd : (message.headers.map Prod.fst).Nodup)
    (k : String) (v : PyVal) (hmem : (k, v) ∈ message.headers) :
    dictGet ("X-AMQP-HEADER-" ++ k) (request_headers endpoint message)
        = some v.str
    ∧ PyVal.str .pyNone = "None" := by
  refine ⟨?_, rfl⟩
  rw [request_headers_structure endpoint message hnd]
  rw [dictGet_append_of_none]
  · exact dictGet_amqp_map message.headers k v hnd hmem
  · refine dictGet_eq_none _ _ ?_
    intro a ha
    have hk := keys_filterMap_sub _ a ha
    simp only [List.map_cons, List.map_nil, List.mem_cons,
      List.not_mem_nil, or_false] at hk
    rcases hk with h | h | h | h | h <;> rw [h]
    · exact (amqp_key_ne_content_type k).symm
    · exact (amqp_key_ne_content_encoding k).symm
    · exact (amqp_key_ne_correlation_id k).symm
    · exact (amqp_key_ne_message_id k).symm
    · exact (amqp_key_ne_routing_key k).symm

/-- Witness for C8 at a concrete message: a header whose value is Python
`None` is forwarded as the string `"None"`. -/
theorem C8_amqp_headers_never_dropped_witness :
    dictGet ("X-AMQP-HEADER-" ++ "trigger") (request_headers ⟨"rk", "http://u/"⟩
        (Message.mk none none none none [("trigger", .pyNone)] []))
        = some "None"
    ∧ PyVal.str .pyNone = "None" :=
  C8_amqp_headers_never_dropped ⟨"rk", "http://u/"⟩
    (Message.mk none none none none [("trigger", .pyNone)] [])
    (by decide) "trigger" .pyNone (List.mem_cons_self _ _)

/-- C5: each handler identity produced by the topology builder equals
"{integration}_{exchange}_{routing_key}_{h}" where `h` is the first 8 hex
characters of the SHA-256 digest of the UTF-8 byte encoding of the
endpoint's URL. -/
theorem C5_handler_identity_formula (amqp_url integration upstream_exchange : String)
    (events : List EventEndpoint) :
    (create_amqpsystem amqp_url integration upstream_exchange
        events).registrations.map Registration.handler_name
      = events.map fun event =>
          integration ++ "_" ++ upstream_exchange ++ "_" ++ event.routing_key
            ++ "_" ++ strTake (hexString (sha256Bytes (utf8Encode event.url))) 8 := by
  unfold create_amqpsystem
  rw [List.map_map]
  rfl

/-- Counterexample to C6 as stated: the distinct pairs ("a_b", "c") and
("a", "b_c") produce the same consumer-group identity "a_b_c". -/
theorem C6_counterexample :
    (create_amqpsystem "amqp://u" "a_b" "c" []).settings.exchange
        = (create_amqpsystem "amqp://u" "a" "b_c" []).settings.exchange
    ∧ (("a_b", "c") : String × String) ≠ ("a", "b_c") :=
  ⟨by decide, by decide⟩

/-- C6 (amended): the consumer-group identity built for integration `i` and
exchange `e` is the string "{i}_{e}"; two distinct (integration, exchange)
pairs produce distinct identity strings whenever they share the integration
name, or whenever both integration names contain no underscore — but not in
general, since underscores in the names make the concatenation ambiguous. -/
theorem C6_consumer_group_identity (amqp_url i1 e1 i2 e2 : String)
    (evs1 evs2 : List EventEndpoint)
    (hne : (i1, e1) ≠ (i2, e2))
    (hcase : i1 = i2 ∨ ('_' ∉ i1.data ∧ '_' ∉ i2.data)) :
    (create_amqpsystem amqp_url i1 e1 evs1).settings.exchange = i1 ++ "_" ++ e1
    ∧ (create_amqpsystem amqp_url i1 e1 evs1).settings.exchange
        ≠ (create_amqpsystem amqp_url i2 e2 evs2).settings.exchange := by
  refine ⟨rfl, ?_⟩
  intro hc
  have hc2 : i1 ++ "_" ++ e1 = i2 ++ "_" ++ e2 := hc
  rcases hcase with heq | ⟨h1, h2⟩
  · subst heq
    have he : e1 = e2 := string_append_left_cancel _ _ _ hc2
    exact hne (by rw [he])
  · obtain ⟨hi, he⟩ := underscore_ident_inj i1 e1 i2 e2 h1 h2 hc2
    exact hne (by rw [hi, he])

/-- Witness for the amended C6: same integration "a", exchanges "b" and
"c" yield identities "a_b" ≠ "a_c". -/
theorem C6_consumer_group_identity_witness :
    (create_amqpsystem "amqp://u" "a" "b" []).settings.exchange = "a" ++ "_" ++ "b"
    ∧ (create_amqpsystem "amqp://u" "a" "b" []).settings.exchange
        ≠ (create_amqpsystem "amqp://u" "a" "c" []).settings.exchange :=
  C6_consumer_group_identity "amqp://u" "a" "b" "a" "c" [] []
    (by decide) (Or.inl rfl)

/-- C7: for every (integration, exchange) pair present in the mapping,
`create_listeners` builds exactly one consumer group and registers exactly
one health check for it, named "AMQP_{integration}_{exchange}", delegating
to that consumer group's own health probe. -/
theorem C7_one_group_and_healthcheck_per_pair (amqp_url : String)
    (event_mapping : EventMapping)
    (h1 : (event_mapping.integrations.map Prod.fst).Nodup)
    (h2 : ∀ p ∈ event_mapping.integrations, (p.2.exchanges.map Prod.fst).Nodup)
    (i : String) (ic : IntegrationMapping) (e : String) (ec : ExchangeMapping)
    (hi : (i, ic) ∈ event_mapping.integrations)
    (he : (e, ec) ∈ ic.exchanges) :
    (create_listeners amqp_url event_mapping).lifespans.countP
        (fun s => s == create_amqpsystem amqp_url i e ec.queues) = 1
    ∧ (create_listeners amqp_url event_mapping).healthchecks.countP
        (fun hc => hc == { name := "AMQP_" ++ i ++ "_" ++ e
                           system := create_amqpsystem amqp_url i e ec.queues }) = 1 := by
  obtain ⟨hl, hh⟩ := create_listeners_characterization amqp_url event_mapping
  have hcount := countP_listener_pairs event_mapping.integrations h1 h2 i ic e ec hi he
  constructor
  · rw [hl, List.countP_map]
    rw [List.countP_congr (q := fun pr =>
        pr == ((i, e, ec) : String × String × ExchangeMapping)) ?_]
    · exact hcount
    · intro pr _
      simp only [Function.comp, beq_iff_eq]
      constructor
      · intro hc
        obtain ⟨hpi, hpe, hpq⟩ := create_amqpsystem_inj amqp_url _ _ _ _ _ _ hc
        have hec : pr.2.2 = ec := by
          cases hpr2 : pr.2.2
          cases ec
          simp only at hpq ⊢
          rw [← hpq, hpr2]
        calc pr = (pr.1, pr.2.1, pr.2.2) := rfl
          _ = (i, e, ec) := by rw [hpi, hpe, hec]
      · intro hc
        rw [hc]
  · rw [hh, List.countP_map]
    rw [List.countP_congr (q := fun pr =>
        pr == ((i, e, ec) : String × String × ExchangeMapping)) ?_]
    · exact hcount
    · intro pr _
      simp only [Function.comp, beq_iff_eq]
      constructor
      · intro hc
        have hsys := congrArg Healthcheck.system hc
        obtain ⟨hpi, hpe, hpq⟩ := create_amqpsystem_inj amqp_url _ _ _ _ _ _ hsys
        have hec : pr.2.2 = ec := by
          cases hpr2 : pr.2.2
          cases ec
          simp only at hpq ⊢
          rw [← hpq, hpr2]
        calc pr = (pr.1, pr.2.1, pr.2.2) := rfl
          _ = (i, e, ec) := by rw [hpi, hpe, hec]
      · intro hc
        rw [hc]

/-- Witness for C7 at a concrete one-integration, one-exchange mapping. -/
theorem C7_one_group_and_healthcheck_per_pair_witness :
    (create_listeners "amqp://u"
        ⟨[("int1", ⟨[("ex1", ⟨[]⟩)]⟩)]⟩).lifespans.countP
        (fun s => s == create_amqpsystem "amqp://u" "int1" "ex1" []) = 1
    ∧ (create_listeners "amqp://u"
        ⟨[("int1", ⟨[("ex1", ⟨[]⟩)]⟩)]⟩).healthchecks.countP
        (fun hc => hc == { name := "AMQP_" ++ "int1" ++ "_" ++ "ex1"
                           system := create_amqpsystem "amqp://u" "int1" "ex1" [] }) = 1 :=
  C7_one_group_and_healthcheck_per_pair "amqp://u"
    ⟨[("int1", ⟨[("ex1", ⟨[]⟩)]⟩)]⟩ (by decide)
    (by intro p hp; fin_cases hp; decide) "int1" ⟨[("ex1", ⟨[]⟩)]⟩ "ex1" ⟨[]⟩
    (List.mem_cons_self _ _) (List.mem_cons_self _ _)

end Amqp2Http
